import Mathlib

/-!
Shallow embedding of `update_psbt_input` from `src/miniscript/plan.rs` of
rust-psbt-v0 (the function is taken from rust-miniscript's plan module).

External collaborators (the `bitcoin` and `miniscript` crates) are modelled
abstractly: public keys, control blocks, leaf hashes, fingerprints and
derivation paths are `Nat` encodings; scripts are an inductive closed under
the `to_p2wsh` constructor; `BTreeMap` is a key-sorted association list.
The `unreachable!` panic for mixed taproot spend types is modelled by the
function returning `none`.
-/

namespace Psbt

/-- `bitcoin::ScriptBuf`, modelled abstractly: either an opaque raw script or
the P2WSH output script of another script. -/
inductive Script where
  | raw (n : Nat)
  | p2wsh (s : Script)
deriving DecidableEq, Repr

/-- `ScriptBuf::to_p2wsh` of the bitcoin crate, modelled as the abstract
`p2wsh` constructor. -/
def Script.to_p2wsh (s : Script) : Script := Script.p2wsh s

/-- `bip32::KeySource`: (master fingerprint, derivation path), both abstract. -/
abbrev KeySource := Nat × Nat

/-- `BTreeMap` with `Nat` keys, modelled as a key-sorted association list. -/
abbrev Map (V : Type) := List (Nat × V)

/-- `BTreeMap::insert`: replaces the value under an existing key, otherwise
inserts the pair keeping the keys sorted. -/
def Map.insert {V : Type} : Map V → Nat → V → Map V
  | [], k, v => [(k, v)]
  | (k0, v0) :: rest, k, v =>
    if k < k0 then (k, v) :: (k0, v0) :: rest
    else if k = k0 then (k, v) :: rest
    else (k0, v0) :: Map.insert rest k v

/-- `BTreeMap::get`: the value stored under a key, if any. -/
def Map.find? {V : Type} : Map V → Nat → Option V
  | [], _ => none
  | (k0, v0) :: rest, k => if k = k0 then some v0 else Map.find? rest k

/-- `BTreeMap::entry(k).and_modify(f).or_insert_with(|| dflt)`: apply `f` to
the value under `k` when the key is present, otherwise insert `dflt`. -/
def Map.upsert {V : Type} (m : Map V) (k : Nat) (f : V → V) (dflt : V) : Map V :=
  match m with
  | [] => [(k, dflt)]
  | (k0, v0) :: rest =>
    if k < k0 then (k, dflt) :: (k0, v0) :: rest
    else if k = k0 then (k0, f v0) :: rest
    else (k0, v0) :: Map.upsert rest k f dflt

/-- A descriptor public key as the populator reads it: its x-only encoding
(`to_x_only_pubkey`), its full public-key encoding (`to_public_key().inner`),
its master fingerprint (`master_fingerprint`) and its full derivation paths
(`full_derivation_paths`). All encodings are abstract `Nat`s. -/
structure PlanKey where
  xonly : Nat
  pubkey : Nat
  fingerprint : Nat
  paths : List Nat
deriving DecidableEq, Repr

/-- `miniscript::miniscript::satisfy::SchnorrSigType`. -/
inductive SchnorrSigType where
  | keySpend
  | scriptSpend (leaf_hash : Nat)
deriving DecidableEq, Repr

/-- `miniscript::miniscript::satisfy::Placeholder`, restricted to the variants
`update_psbt_input` inspects; `other` stands for all remaining variants, which
both branches ignore. Payload fields not read by the populator are dropped. -/
inductive Placeholder where
  | tapScript (script : Script)
  | tapControlBlock (control_block : Nat)
  | schnorrSigPk (pk : PlanKey) (sig_type : SchnorrSigType)
  | schnorrSigPkHash (pk : PlanKey) (tap_leaf_hash : Nat)
  | ecdsaSigPk (pk : PlanKey)
  | other (n : Nat)
deriving DecidableEq, Repr

/-- `descriptor::ShInner`. Each variant carries the script the populator reads
from it: for `Wsh` the inner witness script `wsh.inner_script()`, for the
other variants the result of `sh.inner_script()`. -/
inductive ShInner where
  | wsh (inner_script : Script)
  | wpkh (inner_script : Script)
  | sortedMulti (inner_script : Script)
  | ms (inner_script : Script)
deriving DecidableEq, Repr

/-- `miniscript::descriptor::Descriptor`. The `tr` variant carries the value
of `tr.spend_info().merkle_root()`; `wsh` carries `wsh.inner_script()`; the
payloads of the remaining variants are never read by the populator. -/
inductive Descriptor where
  | bare (script : Script)
  | pkh (k : PlanKey)
  | wpkh (k : PlanKey)
  | sh (inner : ShInner)
  | wsh (inner_script : Script)
  | tr (merkle_root : Option Nat)
deriving DecidableEq, Repr

/-- `miniscript::plan::Plan`, restricted to what `update_psbt_input` reads:
the descriptor and the ordered placeholder template. -/
structure Plan where
  descriptor : Descriptor
  template : List Placeholder
deriving DecidableEq, Repr

/-- `bitcoin::taproot::LeafVersion`; only `TapScript` is ever written here. -/
inductive LeafVersion where
  | tapScript
deriving DecidableEq, Repr

/-- The PSBT `Input` record, restricted to the fields `update_psbt_input`
touches. `tap_key_origins` maps an x-only key to (leaf-hash list, key source);
`tap_scripts` maps a control block to (script, leaf version). -/
structure Input where
  tap_merkle_root : Option Nat := none
  tap_internal_key : Option Nat := none
  tap_key_origins : Map (List Nat × KeySource) := []
  tap_scripts : Map (Script × LeafVersion) := []
  bip32_derivation : Map KeySource := []
  witness_script : Option Script := none
  redeem_script : Option Script := none
deriving DecidableEq, Repr

/-- The local `SpendType` enum of the Taproot branch. -/
inductive SpendType where
  | keySpend (internal_key : Nat)
  | scriptSpend (leaf_hash : Nat)
deriving DecidableEq, Repr

/-- The local `TrDescriptorData` accumulator of the Taproot branch. -/
structure TrDescriptorData where
  tap_script : Option Script := none
  control_block : Option Nat := none
  spend_type : Option SpendType := none
  key_origins : Map KeySource := []
deriving DecidableEq, Repr

/-- The `for path in pk.full_derivation_paths()` loop of the `SchnorrSigPk`
arm: insert `(fingerprint, path)` under the x-only key, for every path. -/
def insertOrigins (pk : PlanKey) (m : Map KeySource) : Map KeySource :=
  pk.paths.foldl (fun m path => Map.insert m pk.xonly (pk.fingerprint, path)) m

/-- One step of the Taproot fold over the plan template. `none` models the
`unreachable!` panic on mixed key-spend and script-spend placeholders. -/
def trStep (data : TrDescriptorData) (item : Placeholder) : Option TrDescriptorData :=
  match item with
  | .tapScript script => some { data with tap_script := some script }
  | .tapControlBlock cb => some { data with control_block := some cb }
  | .schnorrSigPk pk sig_type =>
    let raw_pk := pk.xonly
    let st? : Option (Option SpendType) :=
      match data.spend_type, sig_type with
      | none, .keySpend => some (some (.keySpend raw_pk))
      | none, .scriptSpend leaf_hash => some (some (.scriptSpend leaf_hash))
      | some (.keySpend _), .scriptSpend _ => none
      | some (.scriptSpend _), .keySpend => none
      | _, _ => some data.spend_type
    match st? with
    | none => none
    | some st =>
      some { data with
        spend_type := st
        key_origins := insertOrigins pk data.key_origins }
  | .schnorrSigPkHash _ tap_leaf_hash =>
    some { data with spend_type := some (.scriptSpend tap_leaf_hash) }
  | _ => some data

/-- The `and_modify` closure of the key-origin merge: append the known leaf
hash to the stored leaf-hash list when it is not already there; the stored
key source is untouched. -/
def mergeEntry (leaf_hash : Option Nat) (e : List Nat × KeySource) :
    List Nat × KeySource :=
  match leaf_hash with
  | some lh => if e.1.all (fun i => i != lh) then (e.1 ++ [lh], e.2) else e
  | none => e

/-- The merge loop of the Taproot branch: for every `(pk, key_source)` pair in
the accumulator's key-origin map, upsert into the input's `tap_key_origins`,
inserting `(vec![], key_source)` when the key is absent. -/
def mergeKeyOrigins (leaf_hash : Option Nat) (origins : Map KeySource)
    (m : Map (List Nat × KeySource)) : Map (List Nat × KeySource) :=
  origins.foldl (fun acc e => Map.upsert acc e.1 (mergeEntry leaf_hash) ([], e.2)) m

/-- The per-item body of the `EcdsaSigPk` loop of the legacy/segwit branch. -/
def ecdsaStep (input : Input) (item : Placeholder) : Input :=
  match item with
  | .ecdsaSigPk pk =>
    let m := pk.paths.foldl
      (fun m path => Map.insert m pk.pubkey (pk.fingerprint, path))
      input.bip32_derivation
    { input with bip32_derivation := m }
  | _ => input

/-- The descriptor-variant match of the legacy/segwit branch, populating
`witness_script` and `redeem_script`; `none` models the `unreachable!` for a
`Tr` descriptor reaching this branch (the caller never lets it). -/
def nonTrScripts (d : Descriptor) (input : Input) : Option Input :=
  match d with
  | .bare _ | .pkh _ | .wpkh _ => some input
  | .sh (.wsh s) =>
    some { input with witness_script := some s, redeem_script := some s.to_p2wsh }
  | .sh (.wpkh s) | .sh (.sortedMulti s) | .sh (.ms s) =>
    some { input with redeem_script := some s }
  | .wsh s => some { input with witness_script := some s }
  | .tr _ => none

/-- The writer section of the Taproot branch, run after the fold: set
`tap_internal_key` (key spend) or remember the leaf hash (script spend),
merge the key origins, and insert the (script, control block) pair into
`tap_scripts` when both were observed. -/
def trWriter (data : TrDescriptorData) (input : Input) : Input :=
  let leafAndInput :=
    match data.spend_type with
    | some (.keySpend internal_key) =>
      (({ input with tap_internal_key := some internal_key } : Input),
       (none : Option Nat))
    | some (.scriptSpend leaf_hash) => (input, some leaf_hash)
    | none => (input, none)
  let input := leafAndInput.1
  let leaf_hash := leafAndInput.2
  let input := { input with
    tap_key_origins :=
      mergeKeyOrigins leaf_hash data.key_origins input.tap_key_origins }
  match data.tap_script, data.control_block with
  | some tap_script, some control_block =>
    { input with tap_scripts :=
        Map.insert input.tap_scripts control_block (tap_script, .tapScript) }
  | _, _ => input

/-- `update_psbt_input(plan, input)`. The result is `none` exactly when the
Rust function panics via `unreachable!`. -/
def update_psbt_input (plan : Plan) (input : Input) : Option Input :=
  match plan.descriptor with
  | .tr merkle_root =>
    match plan.template.foldlM trStep {} with
    | none => none
    | some data =>
      some (trWriter data { input with tap_merkle_root := merkle_root })
  | d => nonTrScripts d (plan.template.foldl ecdsaStep input)

/-! ### Classification helpers over plans and templates -/

/-- Whether a descriptor is the Taproot variant. -/
def Descriptor.isTr : Descriptor → Bool
  | .tr _ => true
  | _ => false

/-- The leaf hash the writer section remembers from the classification. -/
def spendLeaf : Option SpendType → Option Nat
  | some (.scriptSpend lh) => some lh
  | _ => none

/-- The scripts of the `TapScript` placeholders of a template, in order. -/
def tapScriptsOf (t : List Placeholder) : List Script :=
  t.filterMap fun it =>
    match it with
    | .tapScript s => some s
    | _ => none

/-- The control blocks of the `TapControlBlock` placeholders, in order. -/
def cbsOf (t : List Placeholder) : List Nat :=
  t.filterMap fun it =>
    match it with
    | .tapControlBlock cb => some cb
    | _ => none

/-- The placeholders that drive the spend classification and key origins:
`SchnorrSigPk` and `SchnorrSigPkHash`. -/
inductive SigItem where
  | pk (k : PlanKey) (sig_type : SchnorrSigType)
  | pkHash (tap_leaf_hash : Nat)
deriving DecidableEq, Repr

/-- The signature placeholders of a template, in order. -/
def sigsOf (t : List Placeholder) : List SigItem :=
  t.filterMap fun it =>
    match it with
    | .schnorrSigPk pk sig_type => some (.pk pk sig_type)
    | .schnorrSigPkHash _ tap_leaf_hash => some (.pkHash tap_leaf_hash)
    | _ => none

/-- The action of one signature placeholder on the classification and the
key-origin accumulator; mirrors the corresponding arms of `trStep`. -/
def sigStep (p : Option SpendType × Map KeySource) (it : SigItem) :
    Option (Option SpendType × Map KeySource) :=
  match it with
  | .pk pk sig_type =>
    let st? : Option (Option SpendType) :=
      match p.1, sig_type with
      | none, .keySpend => some (some (.keySpend pk.xonly))
      | none, .scriptSpend leaf_hash => some (some (.scriptSpend leaf_hash))
      | some (.keySpend _), .scriptSpend _ => none
      | some (.scriptSpend _), .keySpend => none
      | _, _ => some p.1
    match st? with
    | none => none
    | some st => some (st, insertOrigins pk p.2)
  | .pkHash tap_leaf_hash => some (some (.scriptSpend tap_leaf_hash), p.2)

/-- The last element of a list, or a fallback: last-write-wins semantics. -/
def lastOr {α : Type} (l : List α) (x : Option α) : Option α :=
  match l.getLast? with
  | some a => some a
  | none => x

/-- A signature item is a key-spend `SchnorrSigPk`. -/
def SigItem.isKS : SigItem → Bool
  | .pk _ .keySpend => true
  | _ => false

/-- A signature item is a script-spend `SchnorrSigPk`. -/
def SigItem.isSS : SigItem → Bool
  | .pk _ (.scriptSpend _) => true
  | _ => false

/-- A signature item is a `SchnorrSigPkHash`. -/
def SigItem.isPH : SigItem → Bool
  | .pkHash _ => true
  | _ => false

/-- A template contains a key-spend `SchnorrSigPk` placeholder. -/
def hasKeySpendSig (t : List Placeholder) : Bool :=
  (sigsOf t).any SigItem.isKS

/-- A template contains a script-spend `SchnorrSigPk` placeholder. -/
def hasScriptSpendSig (t : List Placeholder) : Bool :=
  (sigsOf t).any SigItem.isSS

/-- A template contains a `SchnorrSigPkHash` placeholder. -/
def hasPkHash (t : List Placeholder) : Bool :=
  (sigsOf t).any SigItem.isPH

/-- Whether a placeholder is an `EcdsaSigPk` for the public-key encoding
`k`. -/
def ecdsaFor (k : Nat) (it : Placeholder) : Bool :=
  match it with
  | .ecdsaSigPk q => q.pubkey == k
  | _ => false

/-- A canonical key-spend template: at least one key-spend signature, no
script-spend source of any kind, and no tap script or control block. -/
def keySpendShaped (t : List Placeholder) : Bool :=
  hasKeySpendSig t && !hasScriptSpendSig t && !hasPkHash t &&
    (tapScriptsOf t).isEmpty && (cbsOf t).isEmpty

/-- A canonical script-spend template: no key-spend signature, and at least
one tap script and one control block. -/
def scriptSpendShaped (t : List Placeholder) : Bool :=
  !hasKeySpendSig t && !(tapScriptsOf t).isEmpty && !(cbsOf t).isEmpty

/-! ### Concrete objects for the scenario claims -/

/-- A concrete descriptor key: x-only form 1, full form 11, fingerprint 21,
single derivation path 31. -/
def kA : PlanKey := { xonly := 1, pubkey := 11, fingerprint := 21, paths := [31] }

/-- A second concrete key, with two derivation paths 33 and 34. -/
def kB : PlanKey := { xonly := 3, pubkey := 13, fingerprint := 23, paths := [33, 34] }

/-- A third concrete key, distinct from `kA` and `kB`. -/
def kC : PlanKey := { xonly := 2, pubkey := 12, fingerprint := 22, paths := [32] }

/-- A fresh PSBT input, all fields unset. -/
def freshInput : Input := {}

/-- The spec's Taproot script-spend scenario template
`[TapScript(S), TapControlBlock(CB), SchnorrSigPkHash(K, LH)]` with
`S = raw 100`, `CB = 41`, `K = kA`, `LH = 51`, under a `Tr` descriptor. -/
def planC1 : Plan :=
  { descriptor := .tr (some 7)
    template := [.tapScript (.raw 100), .tapControlBlock 41, .schnorrSigPkHash kA 51] }

/-- A non-Taproot plan whose single `EcdsaSigPk` key `kB` exposes the two
derivation paths 33 and 34. -/
def planC2 : Plan := { descriptor := .wpkh kA, template := [.ecdsaSigPk kB] }

/-- A Taproot plan containing both a key-spend and a script-spend
`SchnorrSigPk` placeholder, with a `SchnorrSigPkHash` between them. -/
def planC3 : Plan :=
  { descriptor := .tr none
    template := [.schnorrSigPk kA .keySpend, .schnorrSigPkHash kC 51,
                 .schnorrSigPk kB (.scriptSpend 51)] }

/-- A Taproot plan with an empty template. -/
def planC4 : Plan := { descriptor := .tr none, template := [] }

/-- A Taproot template with two key-spend signatures for distinct keys. -/
def tmplC9 : List Placeholder := [.schnorrSigPk kA .keySpend, .schnorrSigPk kC .keySpend]

/-! ### Lemmas about the association-list model of `BTreeMap` -/

theorem Map.find?_insert_self {V : Type} (m : Map V) (k : Nat) (v : V) :
    Map.find? (Map.insert m k v) k = some v := by
  induction m with
  | nil => simp [Map.insert, Map.find?]
  | cons hd tl ih =>
    obtain ⟨k0, v0⟩ := hd
    by_cases h1 : k < k0
    · simp [Map.insert, h1, Map.find?]
    · by_cases h2 : k = k0
      · simp [Map.insert, h1, h2, Map.find?]
      · simp [Map.insert, h1, h2, Map.find?, ih]

theorem Map.find?_insert_ne {V : Type} (m : Map V) (k k' : Nat) (v : V)
    (h : k' ≠ k) : Map.find? (Map.insert m k v) k' = Map.find? m k' := by
  induction m with
  | nil => simp [Map.insert, Map.find?, h]
  | cons hd tl ih =>
    obtain ⟨k0, v0⟩ := hd
    by_cases h1 : k < k0
    · simp [Map.insert, h1, Map.find?, h]
    · by_cases h2 : k = k0
      · subst h2
        simp [Map.insert, h1, Map.find?, h]
      · simp [Map.insert, h1, h2, Map.find?, ih]

theorem Map.find?_upsert_none {V : Type} (m : Map V) (k : Nat) (f : V → V)
    (dflt : V) (h : Map.find? m k = none) :
    Map.find? (Map.upsert m k f dflt) k = some dflt := by
  induction m with
  | nil => simp [Map.upsert, Map.find?]
  | cons hd tl ih =>
    obtain ⟨k0, v0⟩ := hd
    simp only [Map.find?] at h
    by_cases h2 : k = k0
    · simp [h2] at h
    · simp only [h2, if_false] at h
      by_cases h1 : k < k0
      · simp [Map.upsert, h1, Map.find?]
      · simp [Map.upsert, h1, h2, Map.find?, ih h]

/-- The `BTreeMap` invariant: keys strictly increasing. -/
def Map.Wf {V : Type} (m : Map V) : Prop :=
  m.Pairwise (fun a b => a.1 < b.1)

instance {V : Type} (m : Map V) : Decidable (Map.Wf m) := by
  unfold Map.Wf
  infer_instance

theorem Map.find?_eq_none_of_lt {V : Type} (m : Map V) (k : Nat)
    (hm : Map.Wf m) (h : ∀ e ∈ m, k < e.1) : Map.find? m k = none := by
  induction m with
  | nil => simp [Map.find?]
  | cons hd tl ih =>
    have hk : k < hd.1 := h hd (by simp)
    have hne : k ≠ hd.1 := by omega
    obtain ⟨k0, v0⟩ := hd
    simp only [Map.find?, hne, if_false]
    exact ih (List.Pairwise.of_cons hm) (fun e he => h e (by simp [he]))

theorem Map.find?_upsert_some {V : Type} (m : Map V) (k : Nat) (f : V → V)
    (dflt : V) (v : V) (hm : Map.Wf m) (h : Map.find? m k = some v) :
    Map.find? (Map.upsert m k f dflt) k = some (f v) := by
  induction m with
  | nil => simp [Map.find?] at h
  | cons hd tl ih =>
    obtain ⟨k0, v0⟩ := hd
    simp only [Map.find?] at h
    by_cases h2 : k = k0
    · subst h2
      simp only [if_pos rfl] at h
      have h1 : ¬ k < k := by omega
      simp only [Map.upsert, h1, if_false, if_pos rfl]
      simp only [Map.find?, if_pos rfl]
      simp only [if_true] at h ⊢
      rw [Option.some_inj] at h
      rw [h]
    · simp only [h2, if_false] at h
      have h1 : ¬ k < k0 := by
        by_contra hc
        have : Map.find? tl k = none := by
          apply Map.find?_eq_none_of_lt tl k (List.Pairwise.of_cons hm)
          intro e he
          have := (List.pairwise_cons.mp hm).1 e he
          omega
        simp [this] at h
      simp only [Map.upsert, h1, h2, if_false]
      simp only [Map.find?, h2, if_false]
      exact ih (List.Pairwise.of_cons hm) h

theorem Map.mem_upsert {V : Type} (m : Map V) (k : Nat) (f : V → V)
    (dflt : V) (a : Nat × V) (h : a ∈ Map.upsert m k f dflt) :
    a.1 = k ∨ a ∈ m := by
  induction m with
  | nil =>
    simp [Map.upsert] at h
    simp [h]
  | cons hd tl ih =>
    obtain ⟨k0, v0⟩ := hd
    by_cases h1 : k < k0
    · simp only [Map.upsert, h1, if_true] at h
      rcases List.mem_cons.mp h with h | h
      · left; rw [h]
      · right; exact h
    · by_cases h2 : k = k0
      · subst h2
        simp only [Map.upsert, h1, if_false, if_pos rfl] at h
        rcases List.mem_cons.mp h with h | h
        · left; rw [h]
        · right; exact List.mem_cons_of_mem _ h
      · simp only [Map.upsert, h1, h2, if_false] at h
        rcases List.mem_cons.mp h with h | h
        · right; rw [h]; exact List.mem_cons_self _ _
        · rcases ih h with h | h
          · left; exact h
          · right; exact List.mem_cons_of_mem _ h

theorem Map.wf_upsert {V : Type} (m : Map V) (k : Nat) (f : V → V)
    (dflt : V) (hm : Map.Wf m) : Map.Wf (Map.upsert m k f dflt) := by
  induction m with
  | nil => simp [Map.upsert, Map.Wf]
  | cons hd tl ih =>
    obtain ⟨k0, v0⟩ := hd
    obtain ⟨hhd, htl⟩ := List.pairwise_cons.mp hm
    by_cases h1 : k < k0
    · simp only [Map.upsert, h1, if_true]
      refine List.pairwise_cons.mpr ⟨?_, hm⟩
      intro e he
      rcases List.mem_cons.mp he with h | h
      · rw [h]; exact h1
      · have := hhd e h
        simp only at this ⊢
        omega
    · by_cases h2 : k = k0
      · subst h2
        simp only [Map.upsert, h1, if_false, if_pos rfl]
        exact List.pairwise_cons.mpr ⟨hhd, htl⟩
      · simp only [Map.upsert, h1, h2, if_false]
        refine List.pairwise_cons.mpr ⟨?_, ih htl⟩
        intro e he
        rcases Map.mem_upsert tl k f dflt e he with h | h
        · simp only [h]; omega
        · exact hhd e h

theorem Map.find?_upsert_ne {V : Type} (m : Map V) (k k' : Nat) (f : V → V)
    (dflt : V) (h : k' ≠ k) :
    Map.find? (Map.upsert m k f dflt) k' = Map.find? m k' := by
  induction m with
  | nil => simp [Map.upsert, Map.find?, h]
  | cons hd tl ih =>
    obtain ⟨k0, v0⟩ := hd
    by_cases h1 : k < k0
    · simp [Map.upsert, h1, Map.find?, h]
    · by_cases h2 : k = k0
      · subst h2
        simp [Map.upsert, h1, Map.find?, h]
      · simp [Map.upsert, h1, h2, Map.find?, ih]

/-! ### Lemmas about the Taproot key-origin merge -/

theorem mergeKeyOrigins_cons (leaf : Option Nat) (e : Nat × KeySource)
    (os : Map KeySource) (m : Map (List Nat × KeySource)) :
    mergeKeyOrigins leaf (e :: os) m =
      mergeKeyOrigins leaf os (Map.upsert m e.1 (mergeEntry leaf) ([], e.2)) := rfl

theorem mergeKeyOrigins_find?_not_mem (leaf : Option Nat) (origins : Map KeySource)
    (m : Map (List Nat × KeySource)) (k : Nat) (h : ∀ e ∈ origins, e.1 ≠ k) :
    Map.find? (mergeKeyOrigins leaf origins m) k = Map.find? m k := by
  induction origins generalizing m with
  | nil => rfl
  | cons e os ih =>
    rw [mergeKeyOrigins_cons]
    rw [ih _ (fun x hx => h x (List.mem_cons_of_mem _ hx))]
    exact Map.find?_upsert_ne _ _ _ _ _ (fun hc => h e (List.mem_cons_self _ _) hc.symm)

theorem mergeKeyOrigins_wf (leaf : Option Nat) (origins : Map KeySource)
    (m : Map (List Nat × KeySource)) (hm : Map.Wf m) :
    Map.Wf (mergeKeyOrigins leaf origins m) := by
  induction origins generalizing m with
  | nil => exact hm
  | cons e os ih =>
    rw [mergeKeyOrigins_cons]
    exact ih _ (Map.wf_upsert _ _ _ _ hm)

theorem mergeKeyOrigins_find?_mem (leaf : Option Nat) (origins : Map KeySource)
    (m : Map (List Nat × KeySource)) (k : Nat) (ks : KeySource)
    (hm : Map.Wf m) (hnd : (origins.map Prod.fst).Nodup) (hmem : (k, ks) ∈ origins) :
    Map.find? (mergeKeyOrigins leaf origins m) k =
      some (match Map.find? m k with
            | some e => mergeEntry leaf e
            | none => ([], ks)) := by
  induction origins generalizing m with
  | nil => simp at hmem
  | cons e0 os ih =>
    obtain ⟨k0, ks0⟩ := e0
    rw [List.map_cons, List.nodup_cons] at hnd
    rw [mergeKeyOrigins_cons]
    rcases List.mem_cons.mp hmem with h | h
    · have hk : k = k0 := congrArg Prod.fst h
      have hks : ks = ks0 := congrArg Prod.snd h
      subst hk
      subst hks
      rw [mergeKeyOrigins_find?_not_mem]
      · cases hfind : Map.find? m k with
        | none => rw [Map.find?_upsert_none _ _ _ _ hfind]
        | some e => rw [Map.find?_upsert_some _ _ _ _ _ hm hfind]
      · intro x hx hc
        apply hnd.1
        rw [← hc]
        exact List.mem_map.mpr ⟨x, hx, rfl⟩
    · have hkne : k ≠ k0 := by
        intro hc
        apply hnd.1
        rw [← hc]
        exact List.mem_map.mpr ⟨(k, ks), h, rfl⟩
      rw [ih _ (Map.wf_upsert _ _ _ _ hm) hnd.2 h]
      rw [Map.find?_upsert_ne _ _ _ _ _ hkne]

theorem mergeKeyOrigins_find?_of_absent (leaf : Option Nat) (origins : Map KeySource)
    (m : Map (List Nat × KeySource)) (k : Nat) (ks : KeySource)
    (hm : Map.Wf m) (hnd : (origins.map Prod.fst).Nodup) (hmem : (k, ks) ∈ origins)
    (habs : Map.find? m k = none) :
    Map.find? (mergeKeyOrigins leaf origins m) k = some ([], ks) := by
  have h := mergeKeyOrigins_find?_mem leaf origins m k ks hm hnd hmem
  rw [habs] at h
  exact h

theorem mergeKeyOrigins_find?_of_present (leaf : Option Nat) (origins : Map KeySource)
    (m : Map (List Nat × KeySource)) (k : Nat) (ks : KeySource) (e : List Nat × KeySource)
    (hm : Map.Wf m) (hnd : (origins.map Prod.fst).Nodup) (hmem : (k, ks) ∈ origins)
    (hk : Map.find? m k = some e) :
    Map.find? (mergeKeyOrigins leaf origins m) k = some (mergeEntry leaf e) := by
  have h := mergeKeyOrigins_find?_mem leaf origins m k ks hm hnd hmem
  rw [hk] at h
  exact h

theorem mergeEntry_of_not_mem (lh : Nat) (e : List Nat × KeySource) (h : lh ∉ e.1) :
    mergeEntry (some lh) e = (e.1 ++ [lh], e.2) := by
  have hall : e.1.all (fun i => i != lh) = true := by
    rw [List.all_eq_true]
    intro i hi
    rw [bne_iff_ne]
    intro hc
    exact h (hc ▸ hi)
  simp [mergeEntry, hall]

theorem mergeEntry_of_mem (lh : Nat) (e : List Nat × KeySource) (h : lh ∈ e.1) :
    mergeEntry (some lh) e = e := by
  simp only [mergeEntry]
  rw [if_neg]
  intro hc
  rw [List.all_eq_true] at hc
  have := hc lh h
  simp at this

theorem mergeEntry_ite (lh : Nat) (e : List Nat × KeySource) :
    mergeEntry (some lh) e = if lh ∈ e.1 then e else (e.1 ++ [lh], e.2) := by
  by_cases h : lh ∈ e.1
  · rw [if_pos h, mergeEntry_of_mem lh e h]
  · rw [if_neg h, mergeEntry_of_not_mem lh e h]

theorem mergeEntry_idem (lh : Nat) (e : List Nat × KeySource) :
    mergeEntry (some lh) (mergeEntry (some lh) e) = mergeEntry (some lh) e := by
  by_cases h : lh ∈ e.1
  · rw [mergeEntry_of_mem lh e h, mergeEntry_of_mem lh e h]
  · rw [mergeEntry_of_not_mem lh e h]
    exact mergeEntry_of_mem lh _ (by simp)

/-- Claim C1 is false on the code: for the template
`[TapScript(S), TapControlBlock(CB), SchnorrSigPkHash(K, LH)]` applied to a
fresh input, `tap_key_origins` holds no `leaf_hashes = [LH]` entry for `K`
(indeed no entry for `K` at all: the `SchnorrSigPkHash` arm of the fold
ignores its key, and freshly inserted keys get an empty leaf-hash list). -/
theorem claim_C1_cex :
    ¬ ((update_psbt_input planC1 freshInput).map
        (fun i => (Map.find? i.tap_key_origins 1).map Prod.fst) = some (some [51])) := by
  decide

/-- Claim C1 (amended): during the key-origin merge into `tap_key_origins`,
every public key of the accumulator's key-origin map whose x-only key is
absent from `tap_key_origins` is inserted with an empty leaf-hash list
(never the singleton of the known leaf hash), paired with the accumulated
key origin, whatever the classification; and for the template
`[TapScript(S), TapControlBlock(CB), SchnorrSigPkHash(K, LH)]` on a fresh
input, `tap_key_origins` stays empty, because `SchnorrSigPkHash` contributes
no key origin. -/
theorem claim_C1_thm (leaf : Option Nat) (origins : Map KeySource)
    (m : Map (List Nat × KeySource)) (k : Nat) (ks : KeySource)
    (hm : Map.Wf m) (hnd : (origins.map Prod.fst).Nodup)
    (hmem : (k, ks) ∈ origins) (habs : Map.find? m k = none) :
    Map.find? (mergeKeyOrigins leaf origins m) k = some ([], ks) ∧
    (update_psbt_input planC1 freshInput).map Input.tap_key_origins = some [] :=
  ⟨mergeKeyOrigins_find?_of_absent leaf origins m k ks hm hnd hmem habs, by decide⟩

/-- Witness for C1 (amended) at a concrete absent key. -/
theorem claim_C1_witness :
    Map.find? (mergeKeyOrigins (some 51) [(1, (21, 31))] []) 1 = some ([], (21, 31)) :=
  (claim_C1_thm (some 51) [(1, (21, 31))] [] 1 (21, 31)
    (by decide) (by decide) (by decide) (by decide)).1

/-- Claim C7: the `tap_key_origins` merge is additive and idempotent — for a
key already present with entry `e`, one merge with leaf hash `lh` appends
`lh` only when it is not already in the stored list and never touches the
stored key origin `e.2`; a second merge with the same leaf hash changes
nothing; and starting from an empty stored list, two merges yield the list
`[lh]` of size 1, not 2. -/
theorem claim_C7_thm (lh k : Nat) (ks : KeySource) (e : List Nat × KeySource)
    (origins : Map KeySource) (m : Map (List Nat × KeySource))
    (hm : Map.Wf m) (hnd : (origins.map Prod.fst).Nodup)
    (hmem : (k, ks) ∈ origins) (hk : Map.find? m k = some e) :
    Map.find? (mergeKeyOrigins (some lh) origins m) k =
      some (if lh ∈ e.1 then e else (e.1 ++ [lh], e.2)) ∧
    Map.find? (mergeKeyOrigins (some lh) origins
        (mergeKeyOrigins (some lh) origins m)) k =
      Map.find? (mergeKeyOrigins (some lh) origins m) k ∧
    (e.1 = [] →
      Map.find? (mergeKeyOrigins (some lh) origins
          (mergeKeyOrigins (some lh) origins m)) k = some ([lh], e.2)) := by
  have h1 := mergeKeyOrigins_find?_of_present (some lh) origins m k ks e hm hnd hmem hk
  have hwf1 := mergeKeyOrigins_wf (some lh) origins m hm
  have h2 := mergeKeyOrigins_find?_of_present (some lh) origins _ k ks
    (mergeEntry (some lh) e) hwf1 hnd hmem h1
  rw [mergeEntry_idem] at h2
  refine ⟨?_, ?_, ?_⟩
  · rw [h1, mergeEntry_ite]
  · rw [h2, h1]
  · intro he
    rw [h2, mergeEntry_ite, he]
    simp

/-! ### The legacy/segwit branch -/

theorem update_nonTr (d : Descriptor) (t : List Placeholder) (i : Input)
    (hd : d.isTr = false) :
    update_psbt_input ⟨d, t⟩ i = nonTrScripts d (t.foldl ecdsaStep i) := by
  cases d <;> first | rfl | simp [Descriptor.isTr] at hd

theorem ecdsaStep_proj (i : Input) (a : Placeholder) :
    (ecdsaStep i a).tap_merkle_root = i.tap_merkle_root ∧
    (ecdsaStep i a).tap_internal_key = i.tap_internal_key ∧
    (ecdsaStep i a).tap_key_origins = i.tap_key_origins ∧
    (ecdsaStep i a).tap_scripts = i.tap_scripts ∧
    (ecdsaStep i a).witness_script = i.witness_script ∧
    (ecdsaStep i a).redeem_script = i.redeem_script := by
  cases a <;> exact ⟨rfl, rfl, rfl, rfl, rfl, rfl⟩

theorem ecdsaFold_proj (t : List Placeholder) (i : Input) :
    (t.foldl ecdsaStep i).tap_merkle_root = i.tap_merkle_root ∧
    (t.foldl ecdsaStep i).tap_internal_key = i.tap_internal_key ∧
    (t.foldl ecdsaStep i).tap_key_origins = i.tap_key_origins ∧
    (t.foldl ecdsaStep i).tap_scripts = i.tap_scripts ∧
    (t.foldl ecdsaStep i).witness_script = i.witness_script ∧
    (t.foldl ecdsaStep i).redeem_script = i.redeem_script := by
  induction t generalizing i with
  | nil => exact ⟨rfl, rfl, rfl, rfl, rfl, rfl⟩
  | cons a t ih =>
    rw [List.foldl_cons]
    obtain ⟨a1, a2, a3, a4, a5, a6⟩ := ih (ecdsaStep i a)
    obtain ⟨b1, b2, b3, b4, b5, b6⟩ := ecdsaStep_proj i a
    exact ⟨a1.trans b1, a2.trans b2, a3.trans b3, a4.trans b4, a5.trans b5, a6.trans b6⟩

theorem ecdsaFold_tmr (t : List Placeholder) (i : Input) :
    (t.foldl ecdsaStep i).tap_merkle_root = i.tap_merkle_root :=
  (ecdsaFold_proj t i).1

theorem ecdsaFold_tik (t : List Placeholder) (i : Input) :
    (t.foldl ecdsaStep i).tap_internal_key = i.tap_internal_key :=
  (ecdsaFold_proj t i).2.1

theorem ecdsaFold_tko (t : List Placeholder) (i : Input) :
    (t.foldl ecdsaStep i).tap_key_origins = i.tap_key_origins :=
  (ecdsaFold_proj t i).2.2.1

theorem ecdsaFold_tsc (t : List Placeholder) (i : Input) :
    (t.foldl ecdsaStep i).tap_scripts = i.tap_scripts :=
  (ecdsaFold_proj t i).2.2.2.1

theorem ecdsaFold_ws (t : List Placeholder) (i : Input) :
    (t.foldl ecdsaStep i).witness_script = i.witness_script :=
  (ecdsaFold_proj t i).2.2.2.2.1

theorem ecdsaFold_rs (t : List Placeholder) (i : Input) :
    (t.foldl ecdsaStep i).redeem_script = i.redeem_script :=
  (ecdsaFold_proj t i).2.2.2.2.2

theorem foldl_insert_const_find? {V : Type} (k : Nat) (g : Nat → V)
    (ps : List Nat) (m : Map V) :
    Map.find? (ps.foldl (fun m p => Map.insert m k (g p)) m) k =
      match ps.getLast? with
      | some p => some (g p)
      | none => Map.find? m k := by
  induction ps generalizing m with
  | nil => rfl
  | cons p ps ih =>
    rw [List.foldl_cons, ih]
    cases ps with
    | nil => simp [Map.find?_insert_self]
    | cons q qs =>
      rw [List.getLast?_cons_cons]
      cases hq : (q :: qs).getLast? with
      | none => simp at hq
      | some r => rfl

theorem foldl_insert_const_find?_ne {V : Type} (k k' : Nat) (g : Nat → V)
    (ps : List Nat) (m : Map V) (h : k' ≠ k) :
    Map.find? (ps.foldl (fun m p => Map.insert m k (g p)) m) k' =
      Map.find? m k' := by
  induction ps generalizing m with
  | nil => rfl
  | cons p ps ih =>
    rw [List.foldl_cons, ih]
    exact Map.find?_insert_ne _ _ _ _ h

theorem ecdsaFold_find?_preserve (t : List Placeholder) (i : Input) (k : Nat)
    (h : ∀ it ∈ t, ecdsaFor k it = false) :
    Map.find? (t.foldl ecdsaStep i).bip32_derivation k =
      Map.find? i.bip32_derivation k := by
  induction t generalizing i with
  | nil => rfl
  | cons a t ih =>
    rw [List.foldl_cons, ih _ (fun x hx => h x (List.mem_cons_of_mem _ hx))]
    cases a with
    | ecdsaSigPk pk =>
      have hk : k ≠ pk.pubkey := by
        have hpk := h _ (List.mem_cons_self _ _)
        simp only [ecdsaFor, beq_eq_false_iff_ne] at hpk
        exact fun hc => hpk hc.symm
      exact foldl_insert_const_find?_ne pk.pubkey k _ pk.paths i.bip32_derivation hk
    | tapScript s => rfl
    | tapControlBlock cb => rfl
    | schnorrSigPk pk st => rfl
    | schnorrSigPkHash pk lh => rfl
    | other n => rfl

theorem nonTrScripts_cases (d : Descriptor) (i : Input) (hd : d.isTr = false) :
    ∃ j, nonTrScripts d i = some j ∧
      j.tap_merkle_root = i.tap_merkle_root ∧
      j.tap_internal_key = i.tap_internal_key ∧
      j.tap_key_origins = i.tap_key_origins ∧
      j.tap_scripts = i.tap_scripts ∧
      j.bip32_derivation = i.bip32_derivation := by
  cases d with
  | bare s => exact ⟨_, rfl, rfl, rfl, rfl, rfl, rfl⟩
  | pkh k => exact ⟨_, rfl, rfl, rfl, rfl, rfl, rfl⟩
  | wpkh k => exact ⟨_, rfl, rfl, rfl, rfl, rfl, rfl⟩
  | sh inner => cases inner <;> exact ⟨_, rfl, rfl, rfl, rfl, rfl, rfl⟩
  | wsh s => exact ⟨_, rfl, rfl, rfl, rfl, rfl, rfl⟩
  | tr mr => simp [Descriptor.isTr] at hd

/-- The writer section of the Taproot branch never touches the
`bip32_derivation`, `witness_script` or `redeem_script` fields. -/
theorem trWriter_frame (data : TrDescriptorData) (i : Input) :
    (trWriter data i).bip32_derivation = i.bip32_derivation ∧
    (trWriter data i).witness_script = i.witness_script ∧
    (trWriter data i).redeem_script = i.redeem_script := by
  rcases data with ⟨ts, cb, st, ko⟩
  rcases st with _ | st
  · cases ts <;> cases cb <;> exact ⟨rfl, rfl, rfl⟩
  · cases st <;> cases ts <;> cases cb <;> exact ⟨rfl, rfl, rfl⟩

/-- Claim C2 is false on the code: key `kB` exposes the two derivation paths
33 and 34, but after `update_psbt_input` the `bip32_derivation` map holds a
single entry carrying only the last path 34 — there is no per-path entry for
path 33, because the map is keyed by the public key alone. -/
theorem claim_C2_cex :
    (update_psbt_input planC2 freshInput).map Input.bip32_derivation =
      some [(13, (23, 34))] ∧
    ¬ ((update_psbt_input planC2 freshInput).map
        (fun j => Map.find? j.bip32_derivation 13) = some (some (23, 33))) :=
  ⟨by decide, by decide⟩

/-- Claim C2 (amended): for a non-Taproot plan and an `EcdsaSigPk(pk)`
placeholder not followed by another `EcdsaSigPk` for the same public-key
encoding, `bip32_derivation` holds under `pk`'s encoding exactly one entry:
the master fingerprint paired with the LAST derivation path the key exposes;
earlier paths are overwritten, since the map is keyed by the public key. -/
theorem claim_C2_thm (d : Descriptor) (t1 t2 : List Placeholder) (pk : PlanKey)
    (i : Input) (p : Nat) (hd : d.isTr = false)
    (hlast : pk.paths.getLast? = some p)
    (ht2 : ∀ it ∈ t2, ecdsaFor pk.pubkey it = false) :
    (update_psbt_input ⟨d, t1 ++ .ecdsaSigPk pk :: t2⟩ i).map
      (fun j => Map.find? j.bip32_derivation pk.pubkey) =
      some (some (pk.fingerprint, p)) := by
  rw [update_nonTr _ _ _ hd]
  obtain ⟨j, hj, _, _, _, _, hb⟩ :=
    nonTrScripts_cases d ((t1 ++ .ecdsaSigPk pk :: t2).foldl ecdsaStep i) hd
  rw [hj, Option.map_some', hb]
  rw [List.foldl_append, List.foldl_cons]
  rw [ecdsaFold_find?_preserve t2 _ _ ht2]
  show some (Map.find? (pk.paths.foldl
      (fun m path => Map.insert m pk.pubkey (pk.fingerprint, path))
      (t1.foldl ecdsaStep i).bip32_derivation) pk.pubkey) = _
  rw [foldl_insert_const_find?, hlast]

/-- Witness for C2 (amended) at the concrete two-path plan `planC2`. -/
theorem claim_C2_witness :
    (update_psbt_input ⟨.wpkh kA, [] ++ .ecdsaSigPk kB :: []⟩ freshInput).map
      (fun j => Map.find? j.bip32_derivation kB.pubkey) =
      some (some (kB.fingerprint, 34)) :=
  claim_C2_thm (.wpkh kA) [] [] kB freshInput 34 (by decide) (by decide)
    (by intro it hit; simp at hit)

/-- Claim C5: for every non-Taproot descriptor variant and any template and
input, `witness_script` and `redeem_script` match the spec's table:
Bare/Pkh/Wpkh leave both untouched; Sh(Wsh(inner)) sets the witness script to
the inner script and the redeem script to its P2WSH form; Sh(Wpkh),
Sh(SortedMulti) and Sh(Ms) set only the redeem script to the Sh's inner
script; Wsh(inner) sets only the witness script to the inner script. -/
theorem claim_C5_thm (t : List Placeholder) (i : Input) (s : Script) (k : PlanKey) :
    ((update_psbt_input ⟨.bare s, t⟩ i).map fun j =>
      (j.witness_script, j.redeem_script)) =
        some (i.witness_script, i.redeem_script) ∧
    ((update_psbt_input ⟨.pkh k, t⟩ i).map fun j =>
      (j.witness_script, j.redeem_script)) =
        some (i.witness_script, i.redeem_script) ∧
    ((update_psbt_input ⟨.wpkh k, t⟩ i).map fun j =>
      (j.witness_script, j.redeem_script)) =
        some (i.witness_script, i.redeem_script) ∧
    ((update_psbt_input ⟨.sh (.wsh s), t⟩ i).map fun j =>
      (j.witness_script, j.redeem_script)) =
        some (some s, some s.to_p2wsh) ∧
    ((update_psbt_input ⟨.sh (.wpkh s), t⟩ i).map fun j =>
      (j.witness_script, j.redeem_script)) =
        some (i.witness_script, some s) ∧
    ((update_psbt_input ⟨.sh (.sortedMulti s), t⟩ i).map fun j =>
      (j.witness_script, j.redeem_script)) =
        some (i.witness_script, some s) ∧
    ((update_psbt_input ⟨.sh (.ms s), t⟩ i).map fun j =>
      (j.witness_script, j.redeem_script)) =
        some (i.witness_script, some s) ∧
    ((update_psbt_input ⟨.wsh s, t⟩ i).map fun j =>
      (j.witness_script, j.redeem_script)) =
        some (some s, i.redeem_script) := by
  refine ⟨?_, ?_, ?_, ?_, ?_, ?_, ?_, ?_⟩ <;>
    simp [update_psbt_input, nonTrScripts, ecdsaFold_ws, ecdsaFold_rs]

/-- Claim C10: fields listed as "none" in the descriptor table are left
unchanged rather than cleared: Bare/Pkh/Wpkh preserve any pre-existing
witness and redeem script; Wsh preserves the redeem script; Sh(Wpkh),
Sh(SortedMulti) and Sh(Ms) preserve the witness script. -/
theorem claim_C10_thm (t : List Placeholder) (i : Input) (s : Script) (k : PlanKey) :
    ((update_psbt_input ⟨.bare s, t⟩ i).map Input.witness_script) =
      some i.witness_script ∧
    ((update_psbt_input ⟨.bare s, t⟩ i).map Input.redeem_script) =
      some i.redeem_script ∧
    ((update_psbt_input ⟨.pkh k, t⟩ i).map Input.witness_script) =
      some i.witness_script ∧
    ((update_psbt_input ⟨.pkh k, t⟩ i).map Input.redeem_script) =
      some i.redeem_script ∧
    ((update_psbt_input ⟨.wpkh k, t⟩ i).map Input.witness_script) =
      some i.witness_script ∧
    ((update_psbt_input ⟨.wpkh k, t⟩ i).map Input.redeem_script) =
      some i.redeem_script ∧
    ((update_psbt_input ⟨.wsh s, t⟩ i).map Input.redeem_script) =
      some i.redeem_script ∧
    ((update_psbt_input ⟨.sh (.wpkh s), t⟩ i).map Input.witness_script) =
      some i.witness_script ∧
    ((update_psbt_input ⟨.sh (.sortedMulti s), t⟩ i).map Input.witness_script) =
      some i.witness_script ∧
    ((update_psbt_input ⟨.sh (.ms s), t⟩ i).map Input.witness_script) =
      some i.witness_script := by
  refine ⟨?_, ?_, ?_, ?_, ?_, ?_, ?_, ?_, ?_, ?_⟩ <;>
    simp [update_psbt_input, nonTrScripts, ecdsaFold_ws, ecdsaFold_rs]

/-- Claim C6: a non-Taproot plan leaves the four `tap_*` fields exactly as
they were, and a Taproot plan leaves `bip32_derivation`, `witness_script`
and `redeem_script` exactly as they were — each branch mutates only its own
field group. -/
theorem claim_C6_thm :
    (∀ (d : Descriptor) (t : List Placeholder) (i : Input), d.isTr = false →
      (update_psbt_input ⟨d, t⟩ i).map (fun j =>
        (j.tap_merkle_root, j.tap_internal_key, j.tap_key_origins, j.tap_scripts)) =
        some (i.tap_merkle_root, i.tap_internal_key, i.tap_key_origins,
          i.tap_scripts)) ∧
    (∀ (mr : Option Nat) (t : List Placeholder) (i j : Input),
      update_psbt_input ⟨.tr mr, t⟩ i = some j →
      j.bip32_derivation = i.bip32_derivation ∧
      j.witness_script = i.witness_script ∧
      j.redeem_script = i.redeem_script) := by
  constructor
  · intro d t i hd
    rw [update_nonTr d t i hd]
    obtain ⟨j, hj, h1, h2, h3, h4, _⟩ := nonTrScripts_cases d (t.foldl ecdsaStep i) hd
    rw [hj, Option.map_some', h1, h2, h3, h4,
      ecdsaFold_tmr, ecdsaFold_tik, ecdsaFold_tko, ecdsaFold_tsc]
  · intro mr t i j h
    simp only [update_psbt_input] at h
    cases hfold : List.foldlM trStep ({} : TrDescriptorData) t with
    | none => rw [hfold] at h; simp at h
    | some data =>
      rw [hfold] at h
      have hj := Option.some.inj h
      obtain ⟨f1, f2, f3⟩ := trWriter_frame data { i with tap_merkle_root := mr }
      rw [← hj]
      exact ⟨f1, f2, f3⟩

/-- Witness for C6 at concrete plans on both branches. -/
theorem claim_C6_witness :
    ((update_psbt_input ⟨.bare (.raw 100), [.ecdsaSigPk kA]⟩ freshInput).map
      (fun j => (j.tap_merkle_root, j.tap_internal_key, j.tap_key_origins,
        j.tap_scripts)) = some (none, none, [], [])) ∧
    (({ tap_merkle_root := some 7 } : Input).bip32_derivation =
        freshInput.bip32_derivation ∧
      ({ tap_merkle_root := some 7 } : Input).witness_script =
        freshInput.witness_script ∧
      ({ tap_merkle_root := some 7 } : Input).redeem_script =
        freshInput.redeem_script) :=
  ⟨claim_C6_thm.1 (.bare (.raw 100)) [.ecdsaSigPk kA] freshInput (by decide),
   claim_C6_thm.2 (some 7) [] freshInput { tap_merkle_root := some 7 } (by decide)⟩

/-! ### The Taproot fold: decomposition into independent components -/

theorem lastOr_cons {α : Type} (a : α) (l : List α) (x : Option α) :
    lastOr (a :: l) x = lastOr l (some a) := by
  cases l with
  | nil => rfl
  | cons b bs =>
    rw [lastOr, lastOr, List.getLast?_cons_cons]
    cases hq : (b :: bs).getLast? with
    | none => simp at hq
    | some r => rfl

theorem update_tr_eq (mr : Option Nat) (t : List Placeholder) (i : Input) :
    update_psbt_input ⟨.tr mr, t⟩ i =
      (t.foldlM trStep {}).map
        (fun data => trWriter data { i with tap_merkle_root := mr }) := by
  cases h : t.foldlM trStep ({} : TrDescriptorData) with
  | none => simp [update_psbt_input, h]
  | some data => simp [update_psbt_input, h]

/-- The Taproot fold splits into three independent components: the last tap
script, the last control block, and the signature-driven pair of the spend
classification and the key-origin map. -/
theorem trFold_decompose (t : List Placeholder) (d : TrDescriptorData) :
    t.foldlM trStep d =
      ((sigsOf t).foldlM sigStep (d.spend_type, d.key_origins)).map
        (fun p => ⟨lastOr (tapScriptsOf t) d.tap_script,
                   lastOr (cbsOf t) d.control_block, p.1, p.2⟩) := by
  induction t generalizing d with
  | nil => rfl
  | cons a t ih =>
    obtain ⟨dts, dcb, dst, dko⟩ := d
    cases a with
    | tapScript s =>
      show t.foldlM trStep ⟨some s, dcb, dst, dko⟩ = _
      rw [ih]
      rw [show tapScriptsOf (.tapScript s :: t) = s :: tapScriptsOf t from rfl]
      rw [show cbsOf (.tapScript s :: t) = cbsOf t from rfl]
      rw [show sigsOf (.tapScript s :: t) = sigsOf t from rfl]
      rw [lastOr_cons]
    | tapControlBlock cb =>
      show t.foldlM trStep ⟨dts, some cb, dst, dko⟩ = _
      rw [ih]
      rw [show tapScriptsOf (.tapControlBlock cb :: t) = tapScriptsOf t from rfl]
      rw [show cbsOf (.tapControlBlock cb :: t) = cb :: cbsOf t from rfl]
      rw [show sigsOf (.tapControlBlock cb :: t) = sigsOf t from rfl]
      rw [lastOr_cons]
    | schnorrSigPk pk sig =>
      cases dst with
      | none =>
        cases sig with
        | keySpend => exact ih ⟨dts, dcb, some (.keySpend pk.xonly), insertOrigins pk dko⟩
        | scriptSpend lh => exact ih ⟨dts, dcb, some (.scriptSpend lh), insertOrigins pk dko⟩
      | some st0 =>
        cases st0 with
        | keySpend ik =>
          cases sig with
          | keySpend => exact ih ⟨dts, dcb, some (.keySpend ik), insertOrigins pk dko⟩
          | scriptSpend lh => rfl
        | scriptSpend lh0 =>
          cases sig with
          | keySpend => rfl
          | scriptSpend lh => exact ih ⟨dts, dcb, some (.scriptSpend lh0), insertOrigins pk dko⟩
    | schnorrSigPkHash pk lh =>
      exact ih ⟨dts, dcb, some (.scriptSpend lh), dko⟩
    | ecdsaSigPk pk => exact ih ⟨dts, dcb, dst, dko⟩
    | other n => exact ih ⟨dts, dcb, dst, dko⟩

/-- The Taproot writer sets `tap_internal_key` exactly on a key-spend
classification, and otherwise leaves it unchanged. -/
theorem trWriter_tik (data : TrDescriptorData) (i : Input) :
    (trWriter data i).tap_internal_key =
      match data.spend_type with
      | some (.keySpend ik) => some ik
      | _ => i.tap_internal_key := by
  rcases data with ⟨ts, cb, st, ko⟩
  rcases st with _ | st
  · cases ts <;> cases cb <;> rfl
  · cases st <;> cases ts <;> cases cb <;> rfl

/-- The Taproot writer merges the key origins with the leaf hash of the
classification. -/
theorem trWriter_tko (data : TrDescriptorData) (i : Input) :
    (trWriter data i).tap_key_origins =
      mergeKeyOrigins (spendLeaf data.spend_type) data.key_origins
        i.tap_key_origins := by
  rcases data with ⟨ts, cb, st, ko⟩
  rcases st with _ | st
  · cases ts <;> cases cb <;> rfl
  · cases st <;> cases ts <;> cases cb <;> rfl

/-- The Taproot writer inserts into `tap_scripts` exactly when both a tap
script and a control block were accumulated. -/
theorem trWriter_tsc (data : TrDescriptorData) (i : Input) :
    (trWriter data i).tap_scripts =
      match data.tap_script, data.control_block with
      | some s, some cb => Map.insert i.tap_scripts cb (s, .tapScript)
      | _, _ => i.tap_scripts := by
  rcases data with ⟨ts, cb, st, ko⟩
  rcases st with _ | st
  · cases ts <;> cases cb <;> rfl
  · cases st <;> cases ts <;> cases cb <;> rfl

theorem Map.insert_ne_nil {V : Type} (m : Map V) (k : Nat) (v : V) :
    Map.insert m k v ≠ [] := by
  cases m with
  | nil => simp [Map.insert]
  | cons hd tl =>
    obtain ⟨k0, v0⟩ := hd
    simp only [Map.insert]
    split
    · simp
    · split <;> simp

/-! ### The signature fold: panic and success characterisation -/

theorem defaultTr_ts : ({} : TrDescriptorData).tap_script = none := rfl

theorem defaultTr_cb : ({} : TrDescriptorData).control_block = none := rfl

theorem defaultTr_st : ({} : TrDescriptorData).spend_type = none := rfl

theorem defaultTr_ko : ({} : TrDescriptorData).key_origins = [] := rfl

theorem sigFold_none_of_SS_from_keySpend (l : List SigItem) (ik : Nat)
    (ko : Map KeySource) (hSS : l.any SigItem.isSS = true)
    (hPH : l.any SigItem.isPH = false) :
    l.foldlM sigStep (some (.keySpend ik), ko) = none := by
  induction l generalizing ko with
  | nil => simp at hSS
  | cons it l ih =>
    rw [List.any_cons] at hSS hPH
    cases it with
    | pk k sig =>
      cases sig with
      | keySpend =>
        have hSS' : l.any SigItem.isSS = true := by simpa [SigItem.isSS] using hSS
        have hPH' : l.any SigItem.isPH = false := by simpa [SigItem.isPH] using hPH
        exact ih (insertOrigins k ko) hSS' hPH'
      | scriptSpend lh => rfl
    | pkHash lh => simp [SigItem.isPH] at hPH

theorem sigFold_none_of_KS_from_scriptSpend (l : List SigItem) (lh : Nat)
    (ko : Map KeySource) (hKS : l.any SigItem.isKS = true) :
    l.foldlM sigStep (some (.scriptSpend lh), ko) = none := by
  induction l generalizing lh ko with
  | nil => simp at hKS
  | cons it l ih =>
    rw [List.any_cons] at hKS
    cases it with
    | pk k sig =>
      cases sig with
      | keySpend => rfl
      | scriptSpend lh2 =>
        have hKS' : l.any SigItem.isKS = true := by simpa [SigItem.isKS] using hKS
        exact ih lh (insertOrigins k ko) hKS'
    | pkHash lh2 =>
      have hKS' : l.any SigItem.isKS = true := by simpa [SigItem.isKS] using hKS
      exact ih lh2 ko hKS'

theorem sigFold_none_of_mixed (l : List SigItem) (ko : Map KeySource)
    (hKS : l.any SigItem.isKS = true) (hSS : l.any SigItem.isSS = true)
    (hPH : l.any SigItem.isPH = false) :
    l.foldlM sigStep (none, ko) = none := by
  induction l generalizing ko with
  | nil => simp at hKS
  | cons it l ih =>
    rw [List.any_cons] at hKS hSS hPH
    cases it with
    | pk k sig =>
      cases sig with
      | keySpend =>
        have hSS' : l.any SigItem.isSS = true := by simpa [SigItem.isSS] using hSS
        have hPH' : l.any SigItem.isPH = false := by simpa [SigItem.isPH] using hPH
        exact sigFold_none_of_SS_from_keySpend l k.xonly (insertOrigins k ko) hSS' hPH'
      | scriptSpend lh =>
        have hKS' : l.any SigItem.isKS = true := by simpa [SigItem.isKS] using hKS
        exact sigFold_none_of_KS_from_scriptSpend l lh (insertOrigins k ko) hKS'
    | pkHash lh => simp [SigItem.isPH] at hPH

theorem sigFold_some_of_noKS (l : List SigItem) (st : Option SpendType)
    (ko : Map KeySource) (hKS : l.any SigItem.isKS = false)
    (hst : ∀ ik, st ≠ some (.keySpend ik)) :
    ∃ st' ko', l.foldlM sigStep (st, ko) = some (st', ko') ∧
      ∀ ik, st' ≠ some (.keySpend ik) := by
  induction l generalizing st ko with
  | nil => exact ⟨st, ko, rfl, hst⟩
  | cons it l ih =>
    rw [List.any_cons] at hKS
    cases it with
    | pk k sig =>
      cases sig with
      | keySpend => simp [SigItem.isKS] at hKS
      | scriptSpend lh =>
        have hKS' : l.any SigItem.isKS = false := by simpa [SigItem.isKS] using hKS
        cases st with
        | none =>
          obtain ⟨st', ko', h, hns⟩ :=
            ih (some (.scriptSpend lh)) (insertOrigins k ko) hKS' (by simp)
          exact ⟨st', ko', h, hns⟩
        | some st0 =>
          cases st0 with
          | keySpend ik => exact absurd rfl (hst ik)
          | scriptSpend lh0 =>
            obtain ⟨st', ko', h, hns⟩ :=
              ih (some (.scriptSpend lh0)) (insertOrigins k ko) hKS' (by simp)
            exact ⟨st', ko', h, hns⟩
    | pkHash lh =>
      have hKS' : l.any SigItem.isKS = false := by simpa [SigItem.isKS] using hKS
      obtain ⟨st', ko', h, hns⟩ := ih (some (.scriptSpend lh)) ko hKS' (by simp)
      exact ⟨st', ko', h, hns⟩

theorem sigFold_keySpend_preserved (l : List SigItem) (ik : Nat)
    (ko : Map KeySource) (hSS : l.any SigItem.isSS = false)
    (hPH : l.any SigItem.isPH = false) :
    ∃ ko', l.foldlM sigStep (some (.keySpend ik), ko) =
      some (some (.keySpend ik), ko') := by
  induction l generalizing ko with
  | nil => exact ⟨ko, rfl⟩
  | cons it l ih =>
    rw [List.any_cons] at hSS hPH
    cases it with
    | pk k sig =>
      cases sig with
      | keySpend =>
        have hSS' : l.any SigItem.isSS = false := by simpa [SigItem.isSS] using hSS
        have hPH' : l.any SigItem.isPH = false := by simpa [SigItem.isPH] using hPH
        obtain ⟨ko', h⟩ := ih (insertOrigins k ko) hSS' hPH'
        exact ⟨ko', h⟩
      | scriptSpend lh => simp [SigItem.isSS] at hSS
    | pkHash lh => simp [SigItem.isPH] at hPH

theorem sigFold_keySpend_reached (l : List SigItem) (ko : Map KeySource)
    (hKS : l.any SigItem.isKS = true) (hSS : l.any SigItem.isSS = false)
    (hPH : l.any SigItem.isPH = false) :
    ∃ ik ko', l.foldlM sigStep (none, ko) =
      some (some (.keySpend ik), ko') := by
  cases l with
  | nil => simp at hKS
  | cons it l =>
    rw [List.any_cons] at hSS hPH
    cases it with
    | pk k sig =>
      cases sig with
      | keySpend =>
        obtain ⟨ko', h⟩ := sigFold_keySpend_preserved l k.xonly (insertOrigins k ko)
          (by simpa [SigItem.isSS] using hSS) (by simpa [SigItem.isPH] using hPH)
        exact ⟨k.xonly, ko', h⟩
      | scriptSpend lh => simp [SigItem.isSS] at hSS
    | pkHash lh => simp [SigItem.isPH] at hPH

theorem perm_length_le_one_eq {α : Type} (l l' : List α) (hp : l.Perm l')
    (hl : l.length ≤ 1) : l = l' := by
  cases l with
  | nil => exact hp.nil_eq
  | cons a as =>
    cases as with
    | nil => exact List.singleton_perm.mp hp
    | cons b bs => simp at hl

theorem lastOr_of_ne_nil {α : Type} (l : List α) (x : Option α) (h : l ≠ []) :
    ∃ a, lastOr l x = some a := by
  cases hq : l.getLast? with
  | none =>
    rw [List.getLast?_eq_none_iff] at hq
    exact absurd hq h
  | some a =>
    refine ⟨a, ?_⟩
    rw [lastOr, hq]

/-- Claim C3 is false as stated: `planC3`'s template contains both a
key-spend and a script-spend `SchnorrSigPk` placeholder, yet the operation
completes without the fatal assertion, because the `SchnorrSigPkHash` between
them overwrites the classification unconditionally. -/
theorem claim_C3_cex :
    hasKeySpendSig planC3.template = true ∧
    hasScriptSpendSig planC3.template = true ∧
    (update_psbt_input planC3 freshInput).isSome = true :=
  ⟨by decide, by decide, by decide⟩

/-- Claim C3 (amended): a Taproot plan whose template contains both a
key-spend and a script-spend `SchnorrSigPk` placeholder AND no
`SchnorrSigPkHash` placeholder aborts with the fatal assertion; conversely,
a plan that never mixes spend kinds (no key-spend signature at all, or no
script-spend signature and no `SchnorrSigPkHash`) always succeeds. -/
theorem claim_C3_thm (mr : Option Nat) (t : List Placeholder) (i : Input) :
    (hasKeySpendSig t = true → hasScriptSpendSig t = true → hasPkHash t = false →
      update_psbt_input ⟨.tr mr, t⟩ i = none) ∧
    ((hasKeySpendSig t = false ∨
        (hasScriptSpendSig t = false ∧ hasPkHash t = false)) →
      ∃ j, update_psbt_input ⟨.tr mr, t⟩ i = some j) := by
  constructor
  · intro hKS hSS hPH
    rw [update_tr_eq, trFold_decompose, defaultTr_st, defaultTr_ko]
    rw [sigFold_none_of_mixed (sigsOf t) [] hKS hSS hPH]
    rfl
  · intro h
    rw [update_tr_eq, trFold_decompose, defaultTr_st, defaultTr_ko]
    rcases h with hKS | ⟨hSS, hPH⟩
    · obtain ⟨st', ko', hfold, _⟩ := sigFold_some_of_noKS (sigsOf t) none [] hKS (by simp)
      rw [hfold]
      exact ⟨_, rfl⟩
    · cases hKS : hasKeySpendSig t with
      | false =>
        obtain ⟨st', ko', hfold, _⟩ := sigFold_some_of_noKS (sigsOf t) none [] hKS (by simp)
        rw [hfold]
        exact ⟨_, rfl⟩
      | true =>
        obtain ⟨ik, ko', hfold⟩ := sigFold_keySpend_reached (sigsOf t) [] hKS hSS hPH
        rw [hfold]
        exact ⟨_, rfl⟩

/-- Witness for C3 (amended): a template mixing both `SchnorrSigPk` kinds
with no `SchnorrSigPkHash` aborts. -/
theorem claim_C3_witness :
    update_psbt_input
      ⟨.tr none, [.schnorrSigPk kA .keySpend, .schnorrSigPk kC (.scriptSpend 51)]⟩
      freshInput = none :=
  (claim_C3_thm none [.schnorrSigPk kA .keySpend, .schnorrSigPk kC (.scriptSpend 51)]
    freshInput).1 (by decide) (by decide) (by decide)

/-- Claim C4 is false as stated: a Taproot plan with an empty template
completes with neither `tap_internal_key` set nor a `tap_scripts` entry. -/
theorem claim_C4_cex :
    (update_psbt_input planC4 freshInput).map
      (fun j => (j.tap_internal_key, j.tap_scripts)) =
      some (none, ([] : Map (Script × LeafVersion))) := by
  decide

/-- Claim C4 (amended): for a fresh input and a canonically shaped Taproot
template — key-spend shaped (a key-spend signature, no script-spend source,
no tap script or control block) or script-spend shaped (no key-spend
signature, at least one tap script and one control block) — the operation
succeeds and exactly one of the following holds: `tap_internal_key` is set,
or `tap_scripts` is non-empty; the `tap_scripts` side requires the observed
script/control-block pair, not the classification alone. -/
theorem claim_C4_thm (mr : Option Nat) (t : List Placeholder) (i : Input)
    (hik : i.tap_internal_key = none) (hts : i.tap_scripts = [])
    (hshape : keySpendShaped t = true ∨ scriptSpendShaped t = true) :
    ∃ j, update_psbt_input ⟨.tr mr, t⟩ i = some j ∧
      ((j.tap_internal_key.isSome = true ∧ j.tap_scripts = []) ∨
       (j.tap_internal_key = none ∧ j.tap_scripts ≠ [])) := by
  rw [update_tr_eq, trFold_decompose, defaultTr_st, defaultTr_ko,
    defaultTr_ts, defaultTr_cb]
  rcases hshape with hk | hs
  · simp only [keySpendShaped, Bool.and_eq_true, Bool.not_eq_true'] at hk
    obtain ⟨⟨⟨⟨h1, h2⟩, h3⟩, h4⟩, h5⟩ := hk
    obtain ⟨ik, ko', hfold⟩ := sigFold_keySpend_reached (sigsOf t) [] h1 h2 h3
    rw [hfold]
    have h4' : tapScriptsOf t = [] := by
      rwa [List.isEmpty_iff] at h4
    refine ⟨_, rfl, Or.inl ⟨?_, ?_⟩⟩
    · simp [trWriter_tik]
    · simp only [trWriter_tsc, h4']
      exact hts
  · simp only [scriptSpendShaped, Bool.and_eq_true, Bool.not_eq_true'] at hs
    obtain ⟨⟨h1, h2⟩, h3⟩ := hs
    obtain ⟨st', ko', hfold, hnotKS⟩ :=
      sigFold_some_of_noKS (sigsOf t) none [] h1 (by simp)
    rw [hfold]
    have h2' : tapScriptsOf t ≠ [] := by
      intro hc
      rw [hc] at h2
      simp at h2
    have h3' : cbsOf t ≠ [] := by
      intro hc
      rw [hc] at h3
      simp at h3
    obtain ⟨s, hls⟩ := lastOr_of_ne_nil (tapScriptsOf t) none h2'
    obtain ⟨cb, hlb⟩ := lastOr_of_ne_nil (cbsOf t) none h3'
    refine ⟨_, rfl, Or.inr ⟨?_, ?_⟩⟩
    · rw [trWriter_tik]
      rcases st' with _ | st0
      · exact hik
      · cases st0 with
        | keySpend ik => exact absurd rfl (hnotKS ik)
        | scriptSpend lh => exact hik
    · rw [trWriter_tsc]
      simp only [hls, hlb]
      exact Map.insert_ne_nil _ _ _

/-- Witness for C4 (amended) at a concrete key-spend plan. -/
theorem claim_C4_witness :
    ∃ j, update_psbt_input ⟨.tr none, [.schnorrSigPk kA .keySpend]⟩ freshInput =
        some j ∧
      ((j.tap_internal_key.isSome = true ∧ j.tap_scripts = []) ∨
       (j.tap_internal_key = none ∧ j.tap_scripts ≠ [])) :=
  claim_C4_thm none [.schnorrSigPk kA .keySpend] freshInput rfl rfl
    (Or.inl (by decide))

/-- Claim C8: `tap_scripts` gains an entry exactly when the fold observed
both a `TapScript` and a `TapControlBlock` placeholder; the entry maps the
last observed control block to (last observed tap script, TapScript leaf
version); absent either component, `tap_scripts` is unchanged. -/
theorem claim_C8_thm (mr : Option Nat) (t : List Placeholder) (i j : Input)
    (h : update_psbt_input ⟨.tr mr, t⟩ i = some j) :
    (∀ s cb, (tapScriptsOf t).getLast? = some s → (cbsOf t).getLast? = some cb →
      j.tap_scripts = Map.insert i.tap_scripts cb (s, .tapScript)) ∧
    (((tapScriptsOf t).getLast? = none ∨ (cbsOf t).getLast? = none) →
      j.tap_scripts = i.tap_scripts) := by
  rw [update_tr_eq, trFold_decompose, defaultTr_st, defaultTr_ko,
    defaultTr_ts, defaultTr_cb] at h
  cases hsig : (sigsOf t).foldlM sigStep (none, []) with
  | none =>
    rw [hsig] at h
    simp at h
  | some p =>
    rw [hsig] at h
    simp only [Option.map_some', Option.some.injEq] at h
    subst h
    constructor
    · intro s cb hs hcb
      have hls : lastOr (tapScriptsOf t) (none : Option Script) = some s := by
        rw [lastOr, hs]
      have hlb : lastOr (cbsOf t) (none : Option Nat) = some cb := by
        rw [lastOr, hcb]
      rw [trWriter_tsc]
      simp only [hls, hlb]
    · intro hor
      rw [trWriter_tsc]
      rcases hor with hn | hn
      · have hls : lastOr (tapScriptsOf t) (none : Option Script) = none := by
          rw [lastOr, hn]
        simp only [hls]
      · have hlb : lastOr (cbsOf t) (none : Option Nat) = none := by
          rw [lastOr, hn]
        simp only [hlb]
        rcases lastOr (tapScriptsOf t) (none : Option Script) with _ | s <;> rfl

/-- Witness for C8 at the concrete script-spend scenario plan. -/
theorem claim_C8_witness :
    ({ tap_merkle_root := some 7,
       tap_scripts := [(41, (.raw 100, .tapScript))] } : Input).tap_scripts =
      Map.insert freshInput.tap_scripts 41 (.raw 100, .tapScript) :=
  (claim_C8_thm (some 7) planC1.template freshInput
    { tap_merkle_root := some 7, tap_scripts := [(41, (.raw 100, .tapScript))] }
    (by decide)).1 (.raw 100) 41 (by decide) (by decide)

/-- Claim C9 is false as stated: the template `tmplC9` holds two key-spend
signatures for distinct keys — it mixes no spend kinds and has no tap script
or control block, so it is well-formed in the claim's sense — yet reversing
it changes the resulting `tap_internal_key`. -/
theorem claim_C9_cex :
    (hasKeySpendSig tmplC9 && hasScriptSpendSig tmplC9) = false ∧
    hasPkHash tmplC9 = false ∧
    (tapScriptsOf tmplC9).length ≤ 1 ∧
    (cbsOf tmplC9).length ≤ 1 ∧
    tmplC9.Perm tmplC9.reverse ∧
    update_psbt_input ⟨.tr none, tmplC9⟩ freshInput ≠
      update_psbt_input ⟨.tr none, tmplC9.reverse⟩ freshInput :=
  ⟨by decide, by decide, by decide, by decide,
   List.Perm.swap _ _ _, by decide⟩

/-- Claim C9 (amended): for a template with at most one `TapScript`, at most
one `TapControlBlock` and at most one signature placeholder (`SchnorrSigPk`
or `SchnorrSigPkHash` — which in particular rules out mixed spend kinds),
running the operation on any permutation of the template from the same input
yields the same result. -/
theorem claim_C9_thm (mr : Option Nat) (t u : List Placeholder) (i : Input)
    (hperm : t.Perm u) (hts : (tapScriptsOf t).length ≤ 1)
    (hcb : (cbsOf t).length ≤ 1) (hsig : (sigsOf t).length ≤ 1) :
    update_psbt_input ⟨.tr mr, t⟩ i = update_psbt_input ⟨.tr mr, u⟩ i := by
  have h1 : tapScriptsOf t = tapScriptsOf u :=
    perm_length_le_one_eq _ _ (hperm.filterMap _) hts
  have h2 : cbsOf t = cbsOf u :=
    perm_length_le_one_eq _ _ (hperm.filterMap _) hcb
  have h3 : sigsOf t = sigsOf u :=
    perm_length_le_one_eq _ _ (hperm.filterMap _) hsig
  rw [update_tr_eq, update_tr_eq, trFold_decompose, trFold_decompose,
    h1, h2, h3]

/-- Witness for C9 (amended): swapping a tap script and a key-spend
signature leaves the result unchanged. -/
theorem claim_C9_witness :
    update_psbt_input
      ⟨.tr none, [.tapScript (.raw 100), .schnorrSigPk kA .keySpend]⟩ freshInput =
    update_psbt_input
      ⟨.tr none, [.schnorrSigPk kA .keySpend, .tapScript (.raw 100)]⟩ freshInput :=
  claim_C9_thm none _ _ freshInput (List.Perm.swap _ _ _)
    (by decide) (by decide) (by decide)

/-- Witness for C7: a concrete double merge on an initially empty leaf-hash
list yields the singleton list. -/
theorem claim_C7_witness :
    Map.find? (mergeKeyOrigins (some 5) [(1, (2, 3))]
      (mergeKeyOrigins (some 5) [(1, (2, 3))] [(1, ([], (2, 3)))])) 1 =
      some ([5], (2, 3)) :=
  (claim_C7_thm 5 1 (2, 3) ([], (2, 3)) [(1, (2, 3))] [(1, ([], (2, 3)))]
    (by decide) (by decide) (by decide) (by decide)).2.2 rfl

end Psbt
